import Mathlib

/-!
Verification of the asynchronous Logger (Logger.h / Logger.cpp).

Shallow embedding: strings are `List Char`, file bytes are `List Nat`,
the worker/producer interleaving is an explicit event-step relation.
Each definition mirrors one function of the source.
-/

set_option maxRecDepth 4000

namespace LoggerModel

/-- `enum class LogLevel` from Logger.h (TRACE .. CRITICAL, underlying 0..5). -/
inductive LogLevel where
  | TRACE
  | DEBUG
  | INFO
  | WARNING
  | ERROR_
  | CRITICAL
deriving DecidableEq, Repr

/-- Underlying integer value of the `enum class` (declaration order 0..5),
used by `operator<` in `Logger::log`. -/
def LogLevel.toNat : LogLevel → Nat
  | .TRACE => 0
  | .DEBUG => 1
  | .INFO => 2
  | .WARNING => 3
  | .ERROR_ => 4
  | .CRITICAL => 5

/-- `Logger::levelToString` (Logger.cpp:156-166). -/
def levelToString : LogLevel → List Char
  | .TRACE => "TRACE".toList
  | .DEBUG => "DEBUG".toList
  | .INFO => "INFO".toList
  | .WARNING => "WARNING".toList
  | .ERROR_ => "ERROR".toList
  | .CRITICAL => "CRITICAL".toList

/-- `struct LogMessage` from Logger.h:123-129. -/
structure LogMessage where
  level : LogLevel
  message : List Char
  file : List Char
  line : Int
  timestamp : List Char
deriving DecidableEq, Repr

/-- `std::to_string` on the `int` line number. -/
def intToChars (n : Int) : List Char :=
  if n < 0 then '-' :: Nat.toDigits 10 (-n).toNat else Nat.toDigits 10 n.toNat

/-- Fuel-based recursion for `replaceAll`; the fuel only serves structural
termination and is irrelevant once it is at least the string length. -/
def replaceAllF (pat rep : List Char) : Nat → List Char → List Char
  | _, [] => []
  | 0, s => s
  | fuel + 1, c :: rest =>
    if pat.isPrefixOf (c :: rest) ∧ pat ≠ [] then
      rep ++ replaceAllF pat rep fuel (rest.drop (pat.length - 1))
    else
      c :: replaceAllF pat rep fuel rest

/-- The lambda `replaceAll` inside `Logger::formatLogMessage`
(Logger.cpp:176-182): repeatedly find `pat` from the current position,
replace it by `rep`, and resume the search **after** the inserted `rep`
(`start_pos += to.length()`), so inserted text is never rescanned.
Modelled structurally on the yet-unscanned suffix. -/
def replaceAll (pat rep s : List Char) : List Char :=
  replaceAllF pat rep s.length s

/-- `str.find(pat)` viewed on a suffix: index of the first occurrence of
`pat`, if any. -/
def findSuffix (pat : List Char) : List Char → Option Nat
  | [] => if pat = [] then some 0 else none
  | c :: rest =>
    if pat.isPrefixOf (c :: rest) then some 0
    else (findSuffix pat rest).map (· + 1)

/-- Whether `pat` occurs as a contiguous substring (`str.find != npos`). -/
def occursIn (pat s : List Char) : Bool :=
  (findSuffix pat s).isSome

/-- `Logger::formatLogMessage` (Logger.cpp:173-191): five sequential
find-and-replace passes over the evolving string, in the fixed order
timestamp, level, file, line, message. -/
def formatLogMessage (tmpl : List Char) (msg : LogMessage) : List Char :=
  let f1 := replaceAll "{t}".toList msg.timestamp tmpl
  let f2 := replaceAll "{L}".toList (levelToString msg.level) f1
  let f3 := replaceAll "{f}".toList msg.file f2
  let f4 := replaceAll "{l}".toList (intToChars msg.line) f3
  replaceAll "{m}".toList msg.message f4

/-- The default `formatTemplate` member initializer (Logger.h:145). -/
def defaultTemplate : List Char := "{t} | {L} | {f}:{l} -> {m}".toList

example : formatLogMessage defaultTemplate
    ⟨.INFO, "hello".toList, "a.cpp".toList, 10, "T".toList⟩
    = "T | INFO | a.cpp:10 -> hello".toList := by decide

/-! ## File path resolution (`Logger::init`, Logger.cpp:84-97) -/

/-- `std::string::rfind(c)`: index of the last occurrence of `c`. -/
def rfindChar (c : Char) : List Char → Option Nat
  | [] => none
  | x :: rest =>
    match rfindChar c rest with
    | some i => some (i + 1)
    | none => if x = c then some 0 else none

/-- The timestamp-suffix branch of `Logger::init` (Logger.cpp:84-94):
split the whole path at the **last dot** (`filePath.rfind('.')`) and insert
`"_" ++ startupTime` there; with no dot, append at the end. -/
def resolveLogPath (filePath startup : List Char) : List Char :=
  match rfindChar '.' filePath with
  | some dot => filePath.take dot ++ '_' :: startup ++ filePath.drop dot
  | none => filePath ++ '_' :: startup

/-- The effective log file path chosen by `Logger::init`
(Logger.cpp:84-97): suffixed when `addTimestampSuffix`, unchanged otherwise. -/
def effectivePath (filePath startup : List Char) (addTimestampSuffix : Bool) :
    List Char :=
  if addTimestampSuffix then resolveLogPath filePath startup else filePath

/-- Modelled from the spec: the spec says the timestamp is "inserted into the
filename immediately before its extension", i.e. the dot is looked for in the
final path component only (after the last separator), and the suffix is
appended at the end when the *filename* has no extension. -/
def resolveLogPathSpec (filePath startup : List Char) : List Char :=
  let cut := match rfindChar '/' filePath with
    | some i => i + 1
    | none => 0
  let dir := filePath.take cut
  let name := filePath.drop cut
  match rfindChar '.' name with
  | some dot => dir ++ name.take dot ++ '_' :: startup ++ name.drop dot
  | none => dir ++ name ++ '_' :: startup

/-! ## The output file stream (`std::ofstream` semantics used by the code)

`std::basic_ofstream::open` on an already-open stream fails: the underlying
`basic_filebuf::open` returns a null pointer when `is_open()`, and the stream
sets `failbit` while the old file stays open. Writes on a failed stream are
no-ops; `tellp()` returns `-1` when `fail()`. A successful open clears the
state; `ios::out` alone truncates, `ios::out | ios::app` keeps the contents.
On the Microsoft CRT this Windows-only source targets (`windows.h`,
`localtime_s`, `MultiByteToWideChar`), the reported position of a file opened
for appending is the **start of the file until the first I/O operation**
(the MS standard library seeks to the end only for `ios::ate`; appends are
positioned at write time), so `tellp()` is `0` right after any successful
open — append mode on a nonempty file included — and only reports the end
position once something has been written. -/

structure OFStream where
  isOpen : Bool
  failbit : Bool
  path : List Char
  /-- Bytes already pushed to the operating system (survive a crash). -/
  flushed : List Nat
  /-- Bytes still in the stream buffer, moved to `flushed` by a flush. -/
  pending : List Nat
  /-- Some I/O has happened since the stream was opened: before that,
  the CRT reports position `0` even on an append-opened nonempty file. -/
  touched : Bool
deriving DecidableEq, Repr

/-- A default-constructed, never-opened `std::ofstream`. -/
def OFStream.closed : OFStream := ⟨false, false, [], [], [], false⟩

/-- `logFileStream.open(path, mode)` against a file whose current on-disk
contents are `existing` (`none` = the file does not exist yet). -/
def OFStream.openFile (st : OFStream) (p : List Char) (append : Bool)
    (existing : Option (List Nat)) : OFStream :=
  if st.isOpen then
    { st with failbit := true }
  else
    { isOpen := true, failbit := false, path := p,
      flushed := if append then existing.getD [] else [],
      pending := [], touched := false }

/-- `operator<<` / `ostream::write`: appends to the buffer of a good stream
(append mode places the bytes at the end of the existing content), no-op on
a failed or closed one. -/
def OFStream.writeBytes (st : OFStream) (bs : List Nat) : OFStream :=
  if st.isOpen ∧ st.failbit = false then
    { st with pending := st.pending ++ bs, touched := true }
  else st

/-- `ostream::flush`. -/
def OFStream.flushStream (st : OFStream) : OFStream :=
  if st.isOpen ∧ st.failbit = false then
    { st with flushed := st.flushed ++ st.pending, pending := [] }
  else st

/-- `ostream::tellp`: `-1` when `fail()`; `0` before any I/O on the freshly
opened file (the Microsoft CRT reports the start of the file for an
append-opened stream until the first I/O operation); afterwards the write
position at the end of everything written so far. -/
def OFStream.tellp (st : OFStream) : Int :=
  if st.failbit then -1
  else if st.touched then ((st.flushed.length + st.pending.length : Nat) : Int)
  else 0

/-- The UTF-8 byte-order marker written by `Logger::init` (Logger.cpp:104). -/
def bomBytes : List Nat := [0xEF, 0xBB, 0xBF]

/-- Byte content of a rendered string as the code writes it (the repository's
log text is written through `operator<<` on the UTF-8 `std::string`). -/
def strBytes (s : List Char) : List Nat := s.map Char.toNat

/-- Newline appended by `std::endl`. -/
def newlineBytes : List Nat := [10]

/-! ## The Logger object (configuration + stream + queue) -/

/-- The members of `class Logger` that the sequential operations touch
(Logger.h:122-145).  The condition variable, mutex and thread are modelled
separately by the event machine below. -/
structure Logger where
  currentLevel : LogLevel
  /-- `OutputTarget` as its underlying bit-set: Console = 1, File = 2. -/
  outputTarget : Nat
  stream : OFStream
  startupTime : List Char
  logFilePath : List Char
  messageQueue : List LogMessage
  formatTemplate : List Char
deriving DecidableEq, Repr

/-- A freshly constructed `Logger` (member initializers, Logger.h:131-145):
level TRACE, console output, default template, no file. -/
def Logger.fresh (startup : List Char) : Logger :=
  ⟨.TRACE, 1, OFStream.closed, startup, [], [], defaultTemplate⟩

/-- `Logger::init` (Logger.cpp:73-107): set the level, resolve the effective
path, `open` the stream (note: without closing a previously open one), and
write the BOM when the stream reports `is_open() && tellp() == 0`.
`existing` is the on-disk content found at the resolved path. -/
def Logger.init (st : Logger) (level : LogLevel) (filePath : List Char)
    (append addTimestampSuffix : Bool) (existing : Option (List Nat)) : Logger :=
  let resolved := effectivePath filePath st.startupTime addTimestampSuffix
  let s1 := st.stream.openFile resolved append existing
  let s2 := if s1.isOpen ∧ s1.tellp = 0 then s1.writeBytes bomBytes else s1
  { st with currentLevel := level, logFilePath := resolved, stream := s2 }

/-- `Logger::enqueueLog` (Logger.cpp:218-224): push at the queue tail. -/
def Logger.enqueueLog (st : Logger) (msg : LogMessage) : Logger :=
  { st with messageQueue := st.messageQueue ++ [msg] }

/-- `Logger::log` (Logger.cpp:200-212): fast-path level filter on the caller
thread, then construct the message (timestamp captured now, passed in as
`ts`) and enqueue it. -/
def Logger.log (st : Logger) (level : LogLevel) (message file : List Char)
    (line : Int) (ts : List Char) : Logger :=
  if level.toNat < st.currentLevel.toNat then st
  else st.enqueueLog ⟨level, message, file, line, ts⟩

/-- Console lines of `Logger::writeLog`: the `[Console]` echo and the
`[File]` diagnostics (Logger.cpp:234-247). -/
def consoleTag : List Char := "[Console] ".toList

/-- The diagnostic printed when the `File` bit is set but no file is open
(Logger.cpp:246). -/
def fileNotOpenDiag : List Char := "[File] Файл не открыт!".toList

/-- `Logger::writeLog` (Logger.cpp:230-249): render, echo to the console when
the `Console` bit (1) is set; when the `File` bit (2) is set, either append
the rendered line plus newline and flush (file open), or skip the write and
surface a diagnostic (file not open).  Returns the new state and the console
lines emitted; it is a total function (never throws). -/
def Logger.writeLog (st : Logger) (msg : LogMessage) :
    Logger × List (List Char) :=
  let output := formatLogMessage st.formatTemplate msg
  let console := if st.outputTarget &&& 1 ≠ 0 then [consoleTag ++ output] else []
  if st.outputTarget &&& 2 ≠ 0 then
    if st.stream.isOpen then
      let s1 := (st.stream.writeBytes (strBytes output ++ newlineBytes)).flushStream
      let s2 := s1.flushStream
      ({ st with stream := s2 },
        console ++ ["[File] Запись в файл: ".toList ++ st.logFilePath,
                    "[File] Записано байт: ".toList ++ intToChars output.length])
    else
      (st, console ++ [fileNotOpenDiag])
  else
    (st, console)

/-! ## The producer/worker interleaving (Logger.cpp:54-64, 218-224, 257-279)

Event-level semantics: producers append messages under the queue lock
(`enqueueLog`), the destructor raises `exitFlag`, the worker either pops the
queue head (main loop, one message per critical section, Logger.cpp:262-270)
or, once it observes `exitFlag`, performs the final sweep that drains the
whole queue under one `lock_guard` (Logger.cpp:274-278) and exits. -/

structure SysState where
  queue : List LogMessage
  /-- History of messages handed to `writeLog`, in invocation order. -/
  written : List LogMessage
  exitFlag : Bool
  /-- `workerFunc` has returned. -/
  workerDone : Bool
deriving DecidableEq, Repr

/-- The atomic events of the pipeline. -/
inductive Event where
  /-- A producer runs `enqueueLog msg`. -/
  | enq (msg : LogMessage)
  /-- The destructor sets `exitFlag = true` and notifies. -/
  | signal
  /-- The worker's main loop pops one message and writes it. -/
  | workPop
  /-- The worker observes `exitFlag`, drains the queue under one lock
  and returns. -/
  | workFinal
deriving DecidableEq, Repr

/-- One interleaving step; `none` when the event is not enabled. -/
def stepEv (s : SysState) : Event → Option SysState
  | .enq m => some { s with queue := s.queue ++ [m] }
  | .signal => some { s with exitFlag := true }
  | .workPop =>
    if s.workerDone then none
    else
      match s.queue with
      | [] => none
      | m :: rest => some { s with queue := rest, written := s.written ++ [m] }
  | .workFinal =>
    if s.exitFlag = true ∧ s.workerDone = false then
      some { s with queue := [], written := s.written ++ s.queue,
                    workerDone := true }
    else none

/-- Run a whole interleaving. -/
def execTrace (s : SysState) : List Event → Option SysState
  | [] => some s
  | e :: rest =>
    match stepEv s e with
    | some s1 => execTrace s1 rest
    | none => none

/-- The messages a trace enqueues, in submission order. -/
def enqueued (tr : List Event) : List LogMessage :=
  tr.filterMap fun e =>
    match e with
    | .enq m => some m
    | _ => none

/-- The state at `Logger` construction: empty queue, worker running. -/
def initState : SysState := ⟨[], [], false, false⟩

/-! ## The literal `while` loop of `replaceAll` (Logger.cpp:177-181)

For the termination claim the loop is modelled exactly as written: state
`(str, start_pos)`, one iteration finds `pat` at the first index `≥ start_pos`,
splices in `rep` and sets `start_pos` past it; `loopRun` spends one unit of
fuel per iteration and returns `none` when the fuel runs out, so producing
`some _` is precisely termination of the loop. -/

/-- `str.find(pat, pos)`: first occurrence index `≥ pos`. -/
def findFrom (pat s : List Char) (pos : Nat) : Option Nat :=
  (findSuffix pat (s.drop pos)).map (· + pos)

/-- One iteration of the `while` loop: `none` means `find` failed and the
loop exits. -/
def loopStep (pat rep : List Char) (st : List Char × Nat) :
    Option (List Char × Nat) :=
  match findFrom pat st.1 st.2 with
  | none => none
  | some i =>
    some (st.1.take i ++ rep ++ st.1.drop (i + pat.length), i + rep.length)

/-- Run the loop for at most `fuel` iterations. -/
def loopRun (pat rep : List Char) : Nat → List Char × Nat → Option (List Char)
  | 0, _ => none
  | fuel + 1, st =>
    match loopStep pat rep st with
    | none => some st.1
    | some st1 => loopRun pat rep fuel st1

/-- `replaceAll` as the C++ loop itself, starting at `start_pos = 0`. -/
def replaceAllLoop (fuel : Nat) (pat rep s : List Char) : Option (List Char) :=
  loopRun pat rep fuel (s, 0)

/-- `Logger::formatLogMessage` with every `replaceAll` run as the literal
loop; `some` exactly when all five loops terminate within `fuel`. -/
def formatLogMessageLoop (fuel : Nat) (tmpl : List Char) (msg : LogMessage) :
    Option (List Char) := do
  let f1 ← replaceAllLoop fuel "{t}".toList msg.timestamp tmpl
  let f2 ← replaceAllLoop fuel "{L}".toList (levelToString msg.level) f1
  let f3 ← replaceAllLoop fuel "{f}".toList msg.file f2
  let f4 ← replaceAllLoop fuel "{l}".toList (intToChars msg.line) f3
  replaceAllLoop fuel "{m}".toList msg.message f4

/-! ## Concrete inputs used by the witnesses -/

/-- The opening-brace character of the placeholders. -/
def braceL : Char := Char.ofNat 123

def msgA : LogMessage := ⟨.INFO, "alpha".toList, "a.cpp".toList, 1, "t1".toList⟩

def msgB : LogMessage := ⟨.WARNING, "beta".toList, "b.cpp".toList, 2, "t2".toList⟩

def msgC : LogMessage := ⟨.ERROR_, "gamma".toList, "c.cpp".toList, 3, "t3".toList⟩

/-- A message whose *timestamp value* is the placeholder string `{m}`. -/
def msgBrace : LogMessage := ⟨.INFO, "X".toList, "f".toList, 1, "{m}".toList⟩

/-- A file-targeted Logger after a first `init` on `a.log`. -/
def stC4a : Logger :=
  ({ Logger.fresh "T".toList with outputTarget := 2 }).init .INFO
    "a.log".toList true false none

/-- The same Logger after a second `init` on `b.log`. -/
def stC4b : Logger := stC4a.init .INFO "b.log".toList true false none

/-! ## Basic facts about `List.isPrefixOf` -/

theorem isPrefixOf_length {p l : List Char} (h : p.isPrefixOf l = true) :
    p.length ≤ l.length := by
  induction p generalizing l with
  | nil => simp
  | cons a as ih =>
    cases l with
    | nil => simp [List.isPrefixOf] at h
    | cons b bs =>
      simp only [List.isPrefixOf, Bool.and_eq_true, beq_iff_eq] at h
      simpa using ih h.2

theorem isPrefixOf_take {p l : List Char} (h : p.isPrefixOf l = true) :
    l.take p.length = p := by
  induction p generalizing l with
  | nil => simp
  | cons a as ih =>
    cases l with
    | nil => simp [List.isPrefixOf] at h
    | cons b bs =>
      simp only [List.isPrefixOf, Bool.and_eq_true, beq_iff_eq] at h
      simp [h.1, ih h.2]

theorem not_isPrefixOf_of_head_ne {p₀ c : Char} {pt l : List Char} (h : c ≠ p₀) :
    ¬ ((p₀ :: pt).isPrefixOf (c :: l) = true) := by
  simp only [List.isPrefixOf, Bool.and_eq_true, beq_iff_eq]
  intro hh
  exact h hh.1.symm

/-! ## Equations for `replaceAll` -/

theorem replaceAllF_fuel (pat rep : List Char) :
    ∀ f1 f2 s, s.length ≤ f1 → s.length ≤ f2 →
      replaceAllF pat rep f1 s = replaceAllF pat rep f2 s := by
  intro f1
  induction f1 with
  | zero =>
    intro f2 s h1 _
    cases s with
    | nil => cases f2 <;> rfl
    | cons c rest => simp at h1
  | succ f ih =>
    intro f2 s h1 h2
    cases s with
    | nil => cases f2 <;> rfl
    | cons c rest =>
      cases f2 with
      | zero => simp at h2
      | succ f2' =>
        simp only [replaceAllF]
        simp only [List.length_cons] at h1 h2
        split
        · congr 1
          apply ih
          · simp only [List.length_drop]
            omega
          · simp only [List.length_drop]
            omega
        · congr 1
          apply ih <;> omega

theorem replaceAll_cons_pos {pat : List Char} (rep : List Char) {c : Char}
    {s : List Char} (h : pat.isPrefixOf (c :: s) = true) (hne : pat ≠ []) :
    replaceAll pat rep (c :: s)
      = rep ++ replaceAll pat rep (s.drop (pat.length - 1)) := by
  show replaceAllF pat rep (s.length + 1) (c :: s) = _
  simp only [replaceAllF, if_pos (And.intro h hne)]
  congr 1
  apply replaceAllF_fuel
  · simp only [List.length_drop]
    omega
  · exact Nat.le_refl _

theorem replaceAll_cons_neg {pat : List Char} (rep : List Char) {c : Char}
    {s : List Char} (h : ¬ (pat.isPrefixOf (c :: s) = true)) :
    replaceAll pat rep (c :: s) = c :: replaceAll pat rep s := by
  show replaceAllF pat rep (s.length + 1) (c :: s) = _
  simp only [replaceAllF]
  rw [if_neg (by intro hh; exact h hh.1)]
  rfl

theorem replaceAll_no_occur {pat : List Char} (rep : List Char) {s : List Char}
    (h : occursIn pat s = false) : replaceAll pat rep s = s := by
  induction s with
  | nil => rfl
  | cons c rest ih =>
    have hnp : ¬ (pat.isPrefixOf (c :: rest) = true) := by
      intro hp
      simp [occursIn, findSuffix, hp] at h
    have hrest : occursIn pat rest = false := by
      simp only [occursIn, findSuffix, if_neg hnp, Option.isSome_map] at h
      simpa [occursIn] using h
    rw [replaceAll_cons_neg rep hnp, ih hrest]

theorem replaceAll_append_left (p₀ : Char) (pt rep : List Char) {a : List Char}
    (b : List Char) (h : p₀ ∉ a) :
    replaceAll (p₀ :: pt) rep (a ++ b) = a ++ replaceAll (p₀ :: pt) rep b := by
  induction a with
  | nil => simp
  | cons c a' ih =>
    have hc : c ≠ p₀ := fun hh => h (by simp [hh])
    rw [List.cons_append,
      replaceAll_cons_neg rep (not_isPrefixOf_of_head_ne hc),
      ih (fun hm => h (List.mem_cons_of_mem _ hm))]
    rfl

theorem isPrefixOf_append_self (p b : List Char) :
    p.isPrefixOf (p ++ b) = true := by
  induction p with
  | nil => simp [List.isPrefixOf]
  | cons a as ih => simp [List.isPrefixOf, ih]

/-- A string that begins with the pattern itself: the pattern is replaced
and scanning resumes after the replacement, so a pattern-free remainder
passes through untouched. -/
theorem replaceAll_self_head (pat rep b : List Char) (hne : pat ≠ [])
    (hb : occursIn pat b = false) :
    replaceAll pat rep (pat ++ b) = rep ++ b := by
  cases pat with
  | nil => exact absurd rfl hne
  | cons p₀ pt =>
    rw [List.cons_append,
      replaceAll_cons_pos rep
        (by simp [isPrefixOf_append_self (p₀ :: pt) b]) hne]
    simp only [List.length_cons, Nat.add_sub_cancel]
    rw [show (pt ++ b).drop pt.length = b by simp,
      replaceAll_no_occur rep hb]

/-! ## List splicing helpers -/

theorem take_app (l₁ l₂ : List Char) (i : Nat) :
    (l₁ ++ l₂).take (l₁.length + i) = l₁ ++ l₂.take i := by
  induction l₁ with
  | nil => simp
  | cons c r ih =>
    simp only [List.cons_append, List.length_cons]
    rw [show r.length + 1 + i = (r.length + i) + 1 by omega, List.take_succ_cons,
      ih]

theorem drop_app (l₁ l₂ : List Char) (i : Nat) :
    (l₁ ++ l₂).drop (l₁.length + i) = l₂.drop i := by
  induction l₁ with
  | nil => simp
  | cons c r ih =>
    simp only [List.cons_append, List.length_cons]
    rw [show r.length + 1 + i = (r.length + i) + 1 by omega, List.drop_succ_cons,
      ih]

/-! ## `findSuffix` and the splitting of `replaceAll` at the first match -/

theorem findSuffix_bound {pat l : List Char} {j : Nat}
    (h : findSuffix pat l = some j) : j + pat.length ≤ l.length := by
  induction l generalizing j with
  | nil =>
    unfold findSuffix at h
    split at h
    · next hp =>
      cases h
      simp [hp]
    · cases h
  | cons c rest ih =>
    unfold findSuffix at h
    split at h
    · next hp =>
      cases h
      simpa using isPrefixOf_length hp
    · next =>
      rcases Option.map_eq_some'.mp h with ⟨j', hj', rfl⟩
      have := ih hj'
      simp only [List.length_cons]
      omega

theorem findSuffix_split {pat : List Char} (rep : List Char) (hne : pat ≠ []) :
    ∀ {todo : List Char} {j : Nat}, findSuffix pat todo = some j →
      replaceAll pat rep todo
        = todo.take j ++ rep ++ replaceAll pat rep (todo.drop (j + pat.length)) := by
  intro todo
  induction todo with
  | nil =>
    intro j h
    unfold findSuffix at h
    rw [if_neg hne] at h
    cases h
  | cons c rest ih =>
    intro j h
    unfold findSuffix at h
    split at h
    · next hp =>
      cases h
      cases pat with
      | nil => exact absurd rfl hne
      | cons p₀ pt =>
        rw [replaceAll_cons_pos rep hp hne]
        simp [List.drop_succ_cons]
    · next hp =>
      rcases Option.map_eq_some'.mp h with ⟨j', hj', rfl⟩
      rw [replaceAll_cons_neg rep hp, ih hj']
      simp [List.take_succ_cons, List.drop_succ_cons,
        show j' + 1 + pat.length = (j' + pat.length) + 1 by omega]

/-! ## The literal loop computes `replaceAll` (hence it terminates) -/

theorem loopRun_eq {pat : List Char} (rep : List Char) (hne : pat ≠ []) :
    ∀ (fuel : Nat) (done todo : List Char), todo.length < fuel →
      loopRun pat rep fuel (done ++ todo, done.length)
        = some (done ++ replaceAll pat rep todo) := by
  intro fuel
  induction fuel with
  | zero =>
    intro done todo h
    omega
  | succ f ih =>
    intro done todo h
    have hpl : 0 < pat.length := List.length_pos.mpr hne
    simp only [loopRun, loopStep, findFrom]
    rw [show (done ++ todo).drop done.length = todo by simp]
    cases hfs : findSuffix pat todo with
    | none =>
      simp only [Option.map_none']
      rw [replaceAll_no_occur rep (by simp [occursIn, hfs])]
    | some j =>
      have hb := findSuffix_bound hfs
      simp only [Option.map_some']
      rw [show j + done.length = done.length + j by omega,
        take_app done todo j,
        show done.length + j + pat.length = done.length + (j + pat.length) by omega,
        drop_app done todo (j + pat.length)]
      have hlen : (done ++ todo.take j ++ rep).length
          = done.length + j + rep.length := by
        simp only [List.length_append, List.length_take]
        omega
      rw [show done.length + j + rep.length
            = (done ++ (todo.take j ++ rep)).length by
          simp only [List.length_append, List.length_take]; omega]
      rw [show done ++ todo.take j ++ rep ++ todo.drop (j + pat.length)
            = (done ++ (todo.take j ++ rep)) ++ todo.drop (j + pat.length) by
          simp [List.append_assoc]]
      rw [ih (done ++ (todo.take j ++ rep)) (todo.drop (j + pat.length))
        (by simp only [List.length_drop]; omega)]
      rw [findSuffix_split rep hne hfs]
      simp [List.append_assoc]

theorem replaceAllLoop_eq {pat : List Char} (rep : List Char) (hne : pat ≠ [])
    {fuel : Nat} {s : List Char} (h : s.length < fuel) :
    replaceAllLoop fuel pat rep s = some (replaceAll pat rep s) := by
  have := loopRun_eq rep hne fuel [] s h
  simpa [replaceAllLoop] using this

/-! ## `rfindChar` facts for the path resolution -/

theorem rfindChar_eq_none {c : Char} {l : List Char} (h : c ∉ l) :
    rfindChar c l = none := by
  induction l with
  | nil => rfl
  | cons x r ih =>
    simp only [rfindChar]
    rw [ih (fun hm => h (List.mem_cons_of_mem _ hm))]
    rw [if_neg (fun hx => h (by simp [hx]))]

theorem rfindChar_last (c : Char) (a b : List Char) (h : c ∉ b) :
    rfindChar c (a ++ c :: b) = some a.length := by
  induction a with
  | nil => simp [rfindChar, rfindChar_eq_none h]
  | cons x r ih =>
    simp only [List.cons_append, rfindChar, List.append_eq, ih,
      List.length_cons]

/-! ## Trace lemmas for the event machine -/

theorem execTrace_append (t₁ t₂ : List Event) (s : SysState) :
    execTrace s (t₁ ++ t₂)
      = (execTrace s t₁).bind (fun s1 => execTrace s1 t₂) := by
  induction t₁ generalizing s with
  | nil => simp [execTrace]
  | cons e r ih =>
    simp only [List.cons_append, execTrace]
    cases stepEv s e with
    | none => simp
    | some s1 => simp [ih]

/-- One step never loses or reorders a message: what has been written,
followed by what is still queued, grows exactly by the enqueued message. -/
theorem stepEv_writes {s s' : SysState} {e : Event} (h : stepEv s e = some s') :
    s'.written ++ s'.queue = s.written ++ s.queue ++ enqueued [e] := by
  cases e with
  | enq m =>
    simp only [stepEv] at h
    cases h
    simp [enqueued, List.append_assoc]
  | signal =>
    simp only [stepEv] at h
    cases h
    simp [enqueued]
  | workPop =>
    simp only [stepEv] at h
    split at h
    · cases h
    · cases hq : s.queue with
      | nil =>
        rw [hq] at h
        cases h
      | cons m rest =>
        rw [hq] at h
        cases h
        simp [enqueued, hq, List.append_assoc]
  | workFinal =>
    simp only [stepEv] at h
    split at h
    · cases h
      simp [enqueued]
    · cases h

theorem enqueued_cons (e : Event) (r : List Event) :
    enqueued (e :: r) = enqueued [e] ++ enqueued r := by
  cases e <;> simp [enqueued]

theorem exec_writes_inv :
    ∀ (tr : List Event) (s s' : SysState), execTrace s tr = some s' →
      s'.written ++ s'.queue = s.written ++ s.queue ++ enqueued tr := by
  intro tr
  induction tr with
  | nil =>
    intro s s' h
    cases h
    simp [enqueued]
  | cons e r ih =>
    intro s s' h
    simp only [execTrace] at h
    cases he : stepEv s e with
    | none =>
      rw [he] at h
      cases h
    | some s1 =>
      rw [he] at h
      rw [enqueued_cons, ih _ _ h, stepEv_writes he]
      simp [List.append_assoc]

/-- A non-signal step keeps the flags down: before the shutdown signal no
final sweep can happen. -/
theorem stepEv_flags {s s' : SysState} {e : Event} (hne : e ≠ Event.signal)
    (h1 : s.exitFlag = false) (h2 : s.workerDone = false)
    (h : stepEv s e = some s') :
    s'.exitFlag = false ∧ s'.workerDone = false := by
  cases e with
  | enq m =>
    simp only [stepEv] at h
    cases h
    exact ⟨h1, h2⟩
  | signal => exact absurd rfl hne
  | workPop =>
    simp only [stepEv] at h
    split at h
    · cases h
    · cases hq : s.queue with
      | nil =>
        rw [hq] at h
        cases h
      | cons m rest =>
        rw [hq] at h
        cases h
        exact ⟨h1, h2⟩
  | workFinal =>
    simp only [stepEv] at h
    rw [if_neg (by simp [h1])] at h
    cases h

/-- The worker and destructor flags stay down while no shutdown signal has
been raised. -/
theorem noSignal_flags :
    ∀ (tr : List Event) (s s' : SysState), Event.signal ∉ tr →
      s.exitFlag = false → s.workerDone = false → execTrace s tr = some s' →
      s'.exitFlag = false ∧ s'.workerDone = false := by
  intro tr
  induction tr with
  | nil =>
    intro s s' _ h1 h2 h
    cases h
    exact ⟨h1, h2⟩
  | cons e r ih =>
    intro s s' hns h1 h2 h
    simp only [execTrace] at h
    have hnr : Event.signal ∉ r := fun hm => hns (List.mem_cons_of_mem _ hm)
    have hne : e ≠ Event.signal := fun hh => hns (by simp [hh])
    cases he : stepEv s e with
    | none =>
      rw [he] at h
      cases h
    | some s1 =>
      rw [he] at h
      obtain ⟨g1, g2⟩ := stepEv_flags hne h1 h2 he
      exact ih _ _ hnr g1 g2 h

/-- `pre` is an initial segment of what has been, or still will be, written. -/
def committedPre (pre : List LogMessage) (s : SysState) : Prop :=
  if s.workerDone then ∃ r, pre ++ r = s.written
  else ∃ r, pre ++ r = s.written ++ s.queue

theorem committedPre_step {pre : List LogMessage} {s s' : SysState} {e : Event}
    (hc : committedPre pre s) (h : stepEv s e = some s') :
    committedPre pre s' := by
  cases e with
  | enq m =>
    simp only [stepEv] at h
    cases h
    unfold committedPre at hc ⊢
    split at hc
    · next hd =>
      rw [if_pos hd]
      exact hc
    · next hd =>
      rw [if_neg hd]
      obtain ⟨r, hr⟩ := hc
      exact ⟨r ++ [m], by rw [← List.append_assoc, hr, List.append_assoc]⟩
  | signal =>
    simp only [stepEv] at h
    cases h
    exact hc
  | workPop =>
    simp only [stepEv] at h
    split at h
    · cases h
    · next hd =>
      cases hq : s.queue with
      | nil =>
        rw [hq] at h
        cases h
      | cons m rest =>
        rw [hq] at h
        cases h
        unfold committedPre at hc ⊢
        rw [if_neg (by simpa using hd)] at hc ⊢
        obtain ⟨r, hr⟩ := hc
        refine ⟨r, ?_⟩
        rw [hr, hq]
        simp
  | workFinal =>
    simp only [stepEv] at h
    split at h
    · next hd =>
      cases h
      unfold committedPre at hc ⊢
      rw [if_neg (by simp [hd.2])] at hc
      rw [if_pos rfl]
      exact hc
    · cases h

theorem committedPre_trace :
    ∀ (tr : List Event) {pre : List LogMessage} {s s' : SysState},
      committedPre pre s → execTrace s tr = some s' → committedPre pre s' := by
  intro tr
  induction tr with
  | nil =>
    intro pre s s' hc h
    cases h
    exact hc
  | cons e r ih =>
    intro pre s s' hc h
    simp only [execTrace] at h
    cases he : stepEv s e with
    | none =>
      rw [he] at h
      cases h
    | some s1 =>
      rw [he] at h
      exact ih (committedPre_step hc he) h

/-! ## Claim theorems -/

/-- C2: messages are written in exactly the order they were enqueued — along
any interleaving of producers, destructor and worker, the sequence of
`writeLog` invocations is an in-order, duplicate-free initial segment of the
enqueue sequence, and the queue holds exactly the not-yet-written rest. -/
theorem fifo_write_order (tr : List Event) (s : SysState)
    (h : execTrace initState tr = some s) :
    s.written = (enqueued tr).take s.written.length ∧
    s.queue = (enqueued tr).drop s.written.length := by
  have hinv := exec_writes_inv tr initState s h
  simp only [initState, List.nil_append] at hinv
  constructor
  · rw [← hinv, List.take_left]
  · rw [← hinv, List.drop_left]

def trC2 : List Event := [.enq msgA, .enq msgB, .workPop]

def sC2 : SysState := ⟨[msgB], [msgA], false, false⟩

theorem fifo_write_order_witness :
    sC2.written = (enqueued trC2).take sC2.written.length ∧
    sC2.queue = (enqueued trC2).drop sC2.written.length :=
  fifo_write_order trC2 sC2 (by decide)

/-- C1: along any interleaving whose single shutdown signal follows `t₁`,
once the worker has reached its terminal state every message enqueued in
`t₁` (before the signal) has been written, in order; and from the terminal
state no step changes the written output any further. -/
theorem drain_on_clean_shutdown (t₁ t₂ : List Event) (s : SysState)
    (hns : Event.signal ∉ t₁)
    (hex : execTrace initState (t₁ ++ Event.signal :: t₂) = some s)
    (hdone : s.workerDone = true) :
    (∃ r, enqueued t₁ ++ r = s.written) ∧
    (∀ (e : Event) (s' : SysState), stepEv s e = some s' →
      s'.written = s.written) := by
  rw [execTrace_append] at hex
  cases h1 : execTrace initState t₁ with
  | none =>
    rw [h1] at hex
    cases hex
  | some s1 =>
    rw [h1] at hex
    have hex2 : execTrace { s1 with exitFlag := true } t₂ = some s := hex
    have hflags := noSignal_flags t₁ initState s1 hns rfl rfl h1
    have hinv := exec_writes_inv t₁ initState s1 h1
    simp only [initState, List.nil_append] at hinv
    have hcommit : committedPre (enqueued t₁) { s1 with exitFlag := true } := by
      unfold committedPre
      rw [if_neg (by simp [hflags.2])]
      exact ⟨[], by rw [hinv]; simp⟩
    have hc := committedPre_trace t₂ hcommit hex2
    constructor
    · unfold committedPre at hc
      rw [if_pos hdone] at hc
      exact hc
    · intro e s' hst
      cases e with
      | enq m =>
        simp only [stepEv] at hst
        cases hst
        rfl
      | signal =>
        simp only [stepEv] at hst
        cases hst
        rfl
      | workPop =>
        simp only [stepEv] at hst
        rw [if_pos hdone] at hst
        cases hst
      | workFinal =>
        simp only [stepEv] at hst
        rw [if_neg (by simp [hdone])] at hst
        cases hst

def t1C1 : List Event := [.enq msgC]

def t2C1 : List Event := [.workFinal]

def sC1 : SysState := ⟨[], [msgC], true, true⟩

theorem drain_on_clean_shutdown_witness :
    (∃ r, enqueued t1C1 ++ r = sC1.written) ∧
    (∀ (e : Event) (s' : SysState), stepEv sC1 e = some s' →
      s'.written = sC1.written) :=
  drain_on_clean_shutdown t1C1 t2C1 sC1 (by decide) (by decide) (by decide)

/-- C3: `log` below the current minimum level is a no-op — the whole Logger
state (queue included) is returned unchanged, so nothing is constructed,
enqueued, or ever written for that call; at or above the minimum the message
is appended to the queue. -/
theorem log_level_filter (st : Logger) (level : LogLevel)
    (message file : List Char) (line : Int) (ts : List Char) :
    (level.toNat < st.currentLevel.toNat →
      st.log level message file line ts = st) ∧
    (st.currentLevel.toNat ≤ level.toNat →
      (st.log level message file line ts).messageQueue
        = st.messageQueue ++ [⟨level, message, file, line, ts⟩]) := by
  constructor
  · intro h
    simp [Logger.log, h]
  · intro h
    simp [Logger.log, Logger.enqueueLog, Nat.not_lt.mpr h]

def stC3 : Logger := { Logger.fresh "T".toList with currentLevel := .INFO }

theorem log_level_filter_witness :
    (stC3.log .DEBUG "m".toList "f.cpp".toList 7 "ts".toList = stC3) ∧
    (stC3.log .ERROR_ "m".toList "f.cpp".toList 7 "ts".toList).messageQueue
      = stC3.messageQueue ++ [⟨.ERROR_, "m".toList, "f.cpp".toList, 7, "ts".toList⟩] :=
  ⟨(log_level_filter stC3 .DEBUG "m".toList "f.cpp".toList 7 "ts".toList).1
      (by decide),
   (log_level_filter stC3 .ERROR_ "m".toList "f.cpp".toList 7 "ts".toList).2
      (by decide)⟩

/-- C4 (defect evaluation): re-invoking `init` while a file is open does
NOT close and reopen.  `ofstream::open` fails on an already-open stream:
after the second `init` the path member points at `b.log` but the stream
still holds `a.log` with `failbit` set, and a subsequent file-targeted
message is silently dropped (the Logger state is completely unchanged by
`writeLog`). -/
theorem reinit_keeps_old_file :
    stC4a.stream.isOpen = true ∧ stC4a.stream.path = "a.log".toList ∧
    stC4b.logFilePath = "b.log".toList ∧
    stC4b.stream.path = "a.log".toList ∧
    stC4b.stream.isOpen = true ∧ stC4b.stream.failbit = true ∧
    (stC4b.writeLog msgA).1 = stC4b := by decide

/-- C5 counterexample: with template `{t}` and a timestamp whose value is
the string `{m}`, the `{m}` inside the already-substituted timestamp IS
re-substituted by the later pass, yielding the message text `X` instead of
the literal `{m}` the claim promises. -/
theorem format_resubstitutes_cex :
    formatLogMessage "{t}".toList msgBrace = "X".toList ∧
    formatLogMessage "{t}".toList msgBrace ≠ "{m}".toList := by decide

/-- C5 amended: substitution is five sequential passes in the fixed order
t, L, f, l, m over the evolving string.  A template containing none of the
five placeholders (unknown placeholders included) passes through unchanged,
and the message text — substituted by the last pass — is inserted verbatim,
so a placeholder inside the message text is never re-substituted.  (But a
placeholder later in pass order inside an earlier-substituted value IS
re-substituted, see the counterexample.) -/
theorem format_passes_amended :
    (∀ (tmpl : List Char) (msg : LogMessage),
      occursIn "{t}".toList tmpl = false → occursIn "{L}".toList tmpl = false →
      occursIn "{f}".toList tmpl = false → occursIn "{l}".toList tmpl = false →
      occursIn "{m}".toList tmpl = false →
      formatLogMessage tmpl msg = tmpl) ∧
    (∀ msg : LogMessage, formatLogMessage "{m}".toList msg = msg.message) := by
  constructor
  · intro tmpl msg h1 h2 h3 h4 h5
    simp only [formatLogMessage]
    rw [replaceAll_no_occur _ h1, replaceAll_no_occur _ h2,
      replaceAll_no_occur _ h3, replaceAll_no_occur _ h4,
      replaceAll_no_occur _ h5]
  · intro msg
    simp only [formatLogMessage]
    rw [replaceAll_no_occur msg.timestamp (by decide),
      replaceAll_no_occur (levelToString msg.level) (by decide),
      replaceAll_no_occur msg.file (by decide),
      replaceAll_no_occur (intToChars msg.line) (by decide)]
    rw [show ("{m}".toList)
        = braceL :: 'm' :: Char.ofNat 125 :: [] from by decide]
    rw [replaceAll_cons_pos msg.message (by decide) (by decide)]
    simp only [List.drop, List.append_nil]
    rw [show replaceAll (braceL :: 'm' :: Char.ofNat 125 :: [])
        msg.message [] = [] from rfl]
    simp

theorem format_passes_amended_witness :
    formatLogMessage "plain {x} text".toList msgA = "plain {x} text".toList :=
  format_passes_amended.1 "plain {x} text".toList msgA (by decide) (by decide)
    (by decide) (by decide) (by decide)

/-- C6: rendering the default template for (Info, "a.cpp", 10, "hello") at
timestamp `ts` yields exactly `ts | INFO | a.cpp:10 -> hello`, for every
timestamp free of the placeholder brace (every `getTimestamp` value is:
`YYYY-MM-DD HH:MM:SS` contains no brace). -/
theorem default_template_round_trip (ts : List Char) (h : braceL ∉ ts) :
    formatLogMessage defaultTemplate
        ⟨.INFO, "hello".toList, "a.cpp".toList, 10, ts⟩
      = ts ++ " | INFO | a.cpp:10 -> hello".toList := by
  simp only [formatLogMessage, levelToString]
  rw [show defaultTemplate
      = "{t}".toList ++ " | {L} | {f}:{l} -> {m}".toList from by decide]
  rw [replaceAll_self_head "{t}".toList ts " | {L} | {f}:{l} -> {m}".toList
    (by decide) (by decide)]
  rw [show ("{L}".toList) = braceL :: "L\x7d".toList from by decide]
  rw [replaceAll_append_left braceL "L\x7d".toList "INFO".toList
    " | {L} | {f}:{l} -> {m}".toList h]
  rw [show replaceAll (braceL :: "L\x7d".toList) "INFO".toList
      " | {L} | {f}:{l} -> {m}".toList
      = " | INFO | {f}:{l} -> {m}".toList from by decide]
  rw [show ("{f}".toList) = braceL :: "f\x7d".toList from by decide]
  rw [replaceAll_append_left braceL "f\x7d".toList "a.cpp".toList
    " | INFO | {f}:{l} -> {m}".toList h]
  rw [show replaceAll (braceL :: "f\x7d".toList) "a.cpp".toList
      " | INFO | {f}:{l} -> {m}".toList
      = " | INFO | a.cpp:{l} -> {m}".toList from by decide]
  rw [show ("{l}".toList) = braceL :: "l\x7d".toList from by decide]
  rw [replaceAll_append_left braceL "l\x7d".toList (intToChars 10)
    " | INFO | a.cpp:{l} -> {m}".toList h]
  rw [show replaceAll (braceL :: "l\x7d".toList) (intToChars 10)
      " | INFO | a.cpp:{l} -> {m}".toList
      = " | INFO | a.cpp:10 -> {m}".toList from by decide]
  rw [show ("{m}".toList) = braceL :: "m\x7d".toList from by decide]
  rw [replaceAll_append_left braceL "m\x7d".toList "hello".toList
    " | INFO | a.cpp:10 -> {m}".toList h]
  rw [show replaceAll (braceL :: "m\x7d".toList) "hello".toList
      " | INFO | a.cpp:10 -> {m}".toList
      = " | INFO | a.cpp:10 -> hello".toList from by decide]

theorem default_template_round_trip_witness :
    formatLogMessage defaultTemplate
        ⟨.INFO, "hello".toList, "a.cpp".toList, 10,
          "2024-01-01 12:00:00".toList⟩
      = "2024-01-01 12:00:00".toList ++ " | INFO | a.cpp:10 -> hello".toList :=
  default_template_round_trip "2024-01-01 12:00:00".toList (by decide)

/-- C7 counterexample: `rfind('.')` searches the whole path, not the
filename.  For `di.r/app` — a directory with a dot, a filename without
extension — the code splices the timestamp into the *directory name*
(`di_T.r/app`), while the claim (suffix appended at the end when the
filename has no extension) demands `di.r/app_T`. -/
theorem resolve_path_counterexample :
    resolveLogPath "di.r/app".toList "T".toList = "di_T.r/app".toList ∧
    resolveLogPathSpec "di.r/app".toList "T".toList = "di.r/app_T".toList ∧
    resolveLogPath "di.r/app".toList "T".toList
      ≠ resolveLogPathSpec "di.r/app".toList "T".toList := by decide

/-- C7 amended: with the flag enabled, `"_" ++ startupTime` is inserted
immediately before the **last dot of the entire path string** — wherever
that dot sits, including inside a directory component — and appended at the
end when the path contains no dot at all; with the flag disabled the path
is used unchanged. -/
theorem resolve_path_amended :
    (∀ p ts : List Char, '.' ∉ p → resolveLogPath p ts = p ++ '_' :: ts) ∧
    (∀ a b ts : List Char, '.' ∉ b →
      resolveLogPath (a ++ '.' :: b) ts = a ++ '_' :: ts ++ '.' :: b) ∧
    (∀ p ts : List Char, effectivePath p ts false = p) := by
  refine ⟨?_, ?_, ?_⟩
  · intro p ts hp
    simp [resolveLogPath, rfindChar_eq_none hp]
  · intro a b ts hb
    simp only [resolveLogPath, rfindChar_last '.' a b hb]
    rw [show (a ++ '.' :: b).take a.length = a by simp,
      show (a ++ '.' :: b).drop a.length = '.' :: b by simp]
  · intro p ts
    simp [effectivePath]

theorem resolve_path_amended_witness :
    resolveLogPath "app_log.log".toList "2024".toList
      = "app_log_2024.log".toList ∧
    effectivePath "p.log".toList "2024".toList false = "p.log".toList := by
  constructor
  · rw [show "app_log.log".toList
        = "app_log".toList ++ '.' :: "log".toList from by decide,
      resolve_path_amended.2.1 "app_log".toList "log".toList "2024".toList
        (by decide)]
    decide
  · exact resolve_path_amended.2.2 "p.log".toList "2024".toList

def stC8 : Logger := { Logger.fresh "T".toList with outputTarget := 2 }

/-- C8 counterexample: `init` on an existing file holding one byte, in
append mode, DOES write the BOM again.  The Microsoft CRT reports position
`0` on an append-opened stream before any I/O, so `tellp() == 0` holds, the
guard fires, and the three BOM bytes are placed (append mode) after the
existing content — the nonempty file receives a second BOM. -/
theorem bom_second_bom_cex :
    (stC8.init .INFO "a.log".toList true false (some [1])).stream.flushed
      = [1] ∧
    (stC8.init .INFO "a.log".toList true false (some [1])).stream.pending
      = bomBytes ∧
    bomBytes ≠ ([] : List Nat) := by decide

/-- C8 amended: `init` writes the UTF-8 BOM after **every** successful open,
because on the targeted Microsoft CRT `tellp()` reports `0` before any I/O
on the freshly opened stream, append mode on a nonempty file included.  On a
newly created (or empty) file this gives exactly what the claim says — the
first bytes are the BOM followed immediately by the first rendered line —
but a nonempty file opened in append mode receives the BOM again, appended
after its existing content. -/
theorem bom_on_open :
    (∀ (st : Logger) (level : LogLevel) (p : List Char) (ap tsf : Bool)
        (msg : LogMessage),
      st.stream.isOpen = false → st.outputTarget &&& 2 ≠ 0 →
      ((st.init level p ap tsf none).writeLog msg).1.stream.flushed
          = bomBytes ++ strBytes (formatLogMessage st.formatTemplate msg)
            ++ newlineBytes ∧
      ((st.init level p ap tsf none).writeLog msg).1.stream.pending = []) ∧
    (∀ (st : Logger) (level : LogLevel) (p : List Char) (tsf : Bool)
        (c : List Nat),
      st.stream.isOpen = false →
      (st.init level p true tsf (some c)).stream.flushed = c ∧
      (st.init level p true tsf (some c)).stream.pending = bomBytes) := by
  constructor
  · intro st level p ap tsf msg hOpen hbit
    cases ap <;>
      simp [Logger.init, Logger.writeLog, OFStream.openFile,
        OFStream.writeBytes, OFStream.flushStream, OFStream.tellp,
        hOpen, hbit]
  · intro st level p tsf c hOpen
    simp [Logger.init, OFStream.openFile, OFStream.writeBytes,
      OFStream.tellp, hOpen]

theorem bom_on_open_witness :
    ((stC8.init .INFO "a.log".toList true false none).writeLog msgA).1.stream.flushed
        = bomBytes ++ strBytes (formatLogMessage stC8.formatTemplate msgA)
          ++ newlineBytes ∧
    ((stC8.init .INFO "b.log".toList true false (some [1])).stream.flushed
        = [1] ∧
      (stC8.init .INFO "b.log".toList true false (some [1])).stream.pending
        = bomBytes) :=
  ⟨(bom_on_open.1 stC8 .INFO "a.log".toList true false msgA (by decide)
      (by decide)).1,
   bom_on_open.2 stC8 .INFO "b.log".toList false [1] (by decide)⟩

/-- C9 counterexample: after a second `init` the stream is open (`is_open()`
still reports the first file) but failed; `writeLog` with the `File` bit set
then leaves the whole Logger unchanged — the rendered line is neither
appended nor flushed although a file is open, contradicting the claim. -/
theorem writeLog_failed_open_stream_cex :
    stC4b.outputTarget &&& 2 ≠ 0 ∧
    stC4b.stream.isOpen = true ∧
    (stC4b.writeLog msgA).1 = stC4b ∧
    (stC4b.writeLog msgA).1.stream.flushed
      ≠ stC4b.stream.flushed ++ stC4b.stream.pending
        ++ strBytes (formatLogMessage stC4b.formatTemplate msgA)
        ++ newlineBytes := by decide

/-- C9 amended: with the `File` bit set and no file open, `writeLog` skips
the file write, leaves the state unchanged and surfaces a diagnostic (it is
a total function — nothing throws); with a file open **and the stream not
failed** the rendered string plus the line terminator is appended and the
stream buffer is fully flushed.  (An open-but-failed stream — reachable only
through the re-init defect — silently drops the write.) -/
theorem writeLog_file_contract :
    (∀ (st : Logger) (msg : LogMessage),
      st.outputTarget &&& 2 ≠ 0 → st.stream.isOpen = false →
      (st.writeLog msg).1 = st ∧ fileNotOpenDiag ∈ (st.writeLog msg).2) ∧
    (∀ (st : Logger) (msg : LogMessage),
      st.outputTarget &&& 2 ≠ 0 → st.stream.isOpen = true →
      st.stream.failbit = false →
      (st.writeLog msg).1.stream.flushed
        = st.stream.flushed ++ st.stream.pending
          ++ strBytes (formatLogMessage st.formatTemplate msg)
          ++ newlineBytes ∧
      (st.writeLog msg).1.stream.pending = []) := by
  constructor
  · intro st msg hbit hopen
    simp [Logger.writeLog, hbit, hopen]
  · intro st msg hbit hopen hfail
    simp [Logger.writeLog, OFStream.writeBytes, OFStream.flushStream,
      hbit, hopen, hfail, List.append_assoc]

def stC9b : Logger := { Logger.fresh "T".toList with outputTarget := 2 }

def stC9c : Logger := stC9b.init .INFO "c.log".toList true false none

theorem writeLog_file_contract_witness :
    ((stC9b.writeLog msgB).1 = stC9b ∧
      fileNotOpenDiag ∈ (stC9b.writeLog msgB).2) ∧
    ((stC9c.writeLog msgB).1.stream.flushed
        = stC9c.stream.flushed ++ stC9c.stream.pending
          ++ strBytes (formatLogMessage stC9c.formatTemplate msgB)
          ++ newlineBytes ∧
      (stC9c.writeLog msgB).1.stream.pending = []) :=
  ⟨writeLog_file_contract.1 stC9b msgB (by decide) (by decide),
   writeLog_file_contract.2 stC9c msgB (by decide) (by decide) (by decide)⟩

/-- C10: `formatLogMessage` terminates for every template and message.  Run
with the literal `while` loop of `replaceAll` (one fuel unit per iteration,
`none` = the fuel ran out), enough fuel exists for all five passes to
complete — each iteration resumes searching past the freshly inserted
replacement, so the unscanned region shrinks even when a substituted value
contains the very placeholder being replaced — and the loops compute
exactly `formatLogMessage`. -/
theorem formatLogMessage_loop_terminates (tmpl : List Char) (msg : LogMessage) :
    ∃ fuel : Nat, formatLogMessageLoop fuel tmpl msg
      = some (formatLogMessage tmpl msg) := by
  let f1 := replaceAll "{t}".toList msg.timestamp tmpl
  let f2 := replaceAll "{L}".toList (levelToString msg.level) f1
  let f3 := replaceAll "{f}".toList msg.file f2
  let f4 := replaceAll "{l}".toList (intToChars msg.line) f3
  let N := tmpl.length + f1.length + f2.length + f3.length + f4.length + 1
  refine ⟨N, ?_⟩
  have e1 : replaceAllLoop N "{t}".toList msg.timestamp tmpl = some f1 :=
    replaceAllLoop_eq msg.timestamp (by decide) (by omega)
  have e2 : replaceAllLoop N "{L}".toList (levelToString msg.level) f1
      = some f2 :=
    replaceAllLoop_eq (levelToString msg.level) (by decide) (by omega)
  have e3 : replaceAllLoop N "{f}".toList msg.file f2 = some f3 :=
    replaceAllLoop_eq msg.file (by decide) (by omega)
  have e4 : replaceAllLoop N "{l}".toList (intToChars msg.line) f3
      = some f4 :=
    replaceAllLoop_eq (intToChars msg.line) (by decide) (by omega)
  have e5 : replaceAllLoop N "{m}".toList msg.message f4
      = some (replaceAll "{m}".toList msg.message f4) :=
    replaceAllLoop_eq msg.message (by decide) (by omega)
  simp only [formatLogMessageLoop, e1, e2, e3, e4, e5, Option.bind_eq_bind,
    Option.some_bind]
  rfl

end LoggerModel
